import Mathlib

/-!
Shallow embedding of the pyptx layout engine (src/src/pyptx/units.py,
src/src/pyptx/layout.py, src/src/pyptx/core.py).

Python floats are modelled as exact rationals (ℚ); Python's `int(x)`
truncates toward zero, modelled by `pyInt`.  EMU lengths are integers (ℤ).
Exceptions are modelled with `Except LayoutErr`.
-/

namespace Pyptx

/-- The exception taxonomy of src/src/pyptx/errors.py (plus core.py's
`LayoutError` raise and the builtin ValueError used by unit constructors
and `Auto.resolve`). -/
inductive LayoutErr where
  | overflow        -- errors.OverflowError
  | valueError      -- builtin ValueError (Auto.resolve total_weights <= 0)
  | layoutError     -- errors.LayoutError (core.py Box > 1 child)
  | layoutStateError
  | specMismatch    -- errors.SpecMismatchError
  | indexError      -- builtin IndexError (_get_child out of range)
  deriving DecidableEq, Repr

/-- Python `int(x)` on a real value: truncation toward zero. -/
def pyInt (q : ℚ) : ℤ := if q < 0 then ⌈q⌉ else ⌊q⌋

/-- EMUS_PER_INCH = pptx.util.Inches(1).emu = 914400 (units.py line 14). -/
def EMUS_PER_INCH : ℤ := 914400

/-- EMUS_PER_CM = pptx.util.Cm(1).emu = 360000 (units.py line 15). -/
def EMUS_PER_CM : ℤ := 360000

/-- The closed set of `Size` subclasses in src/src/pyptx/units.py:
`Inch`, `Centimeter`, `Ratio`, `Auto` (the weight unit; the drafts call it
`Weight`).  Constructor-time validation is modelled separately
(`Ratio.mk?`, `Auto.mk?`); the payload here is whatever float the object
ended up holding. -/
inductive Size where
  | inch (inches : ℚ)
  | centimeter (cm : ℚ)
  | ratio (r : ℚ)
  | auto (weight : ℚ)
  deriving DecidableEq, Repr

/-- `Inch.__init__`: accepts any float, no validation (units.py line 29). -/
def Inch.mk (inches : ℚ) : Size := .inch inches

/-- `Centimeter.__init__`: accepts any float, no validation (units.py line 36). -/
def Centimeter.mk (cm : ℚ) : Size := .centimeter cm

/-- `Ratio.__init__`: raises ValueError unless 0 <= ratio <= 1
(units.py lines 43-46). -/
def Ratio.mk? (r : ℚ) : Except LayoutErr Size :=
  if 0 ≤ r ∧ r ≤ 1 then .ok (.ratio r) else .error .valueError

/-- `Auto.__init__`: raises ValueError unless weight > 0
(units.py lines 53-55). -/
def Auto.mk? (w : ℚ) : Except LayoutErr Size :=
  if w ≤ 0 then .error .valueError else .ok (.auto w)

/-- `Size.resolve(parent_size_emu, available_space_emu, total_weights)`
for each variant (units.py lines 30-31, 37-38, 47-48, 56-58). -/
def Size.resolve (s : Size) (parent_size_emu : ℤ) (available_space_emu : ℤ)
    (total_weights : ℚ) : Except LayoutErr ℤ :=
  match s with
  | .inch i => .ok (pyInt (i * EMUS_PER_INCH))
  | .centimeter c => .ok (pyInt (c * EMUS_PER_CM))
  | .ratio r => .ok (pyInt (parent_size_emu * r))
  | .auto w =>
      if total_weights ≤ 0 then .error .valueError
      else .ok (pyInt (available_space_emu * (w / total_weights)))

/-- Whether a `Size` is an `Auto` (the `isinstance(s, Auto)` test of
units.py line 66). -/
def Size.isAuto : Size → Bool
  | .auto _ => true
  | _ => false

/-- Pass 1 of `resolve_length_span` (units.py lines 63-69): the fold
accumulating `total_fixed` (resolving every non-Auto against
`(total_emu, 0, 0)`) and `total_w` (summing Auto weights).  Non-Auto
resolution never raises, so the pass is total. -/
def pass1 (specs : List Size) (total_emu : ℤ) : ℤ × ℚ :=
  specs.foldl
    (fun acc s =>
      match s with
      | .auto w => (acc.1, acc.2 + w)
      | .inch i => (acc.1 + pyInt (i * EMUS_PER_INCH), acc.2)
      | .centimeter c => (acc.1 + pyInt (c * EMUS_PER_CM), acc.2)
      | .ratio r => (acc.1 + pyInt (total_emu * r), acc.2))
    (0, 0)

/-- `resolve_length_span(specs, total_emu)` (units.py lines 62-75):
pass 1, the `avail < 0` OverflowError check, then pass 2 resolving every
spec against `(total_emu, avail, total_w)`. -/
def resolve_length_span (specs : List Size) (total_emu : ℤ) :
    Except LayoutErr (List ℤ) :=
  let p := pass1 specs total_emu
  let avail := total_emu - p.1
  if avail < 0 then .error .overflow
  else specs.mapM (fun s => s.resolve total_emu avail p.2)

/-- The value a non-Auto unit resolves to in pass 1 (and, since Inch,
Centimeter and Ratio ignore `available_space_emu` and `total_weights`,
also in pass 2); Auto units are skipped by pass 1, contributing 0. -/
def Size.fixedVal (s : Size) (total_emu : ℤ) : ℤ :=
  match s with
  | .inch i => pyInt (i * EMUS_PER_INCH)
  | .centimeter c => pyInt (c * EMUS_PER_CM)
  | .ratio r => pyInt (total_emu * r)
  | .auto _ => 0

/-- The weight an Auto unit contributes to `total_w` in pass 1; non-Auto
units contribute 0. -/
def Size.weightVal : Size → ℚ
  | .auto w => w
  | _ => 0

/-- The concrete (Absolute + Ratio) sum accumulated by pass 1 as
`total_fixed`. -/
def concreteFixed (specs : List Size) (total_emu : ℤ) : ℤ :=
  (specs.map (Size.fixedVal · total_emu)).sum

/-- The Auto-weight sum accumulated by pass 1 as `total_w`. -/
def totalWeights (specs : List Size) : ℚ :=
  (specs.map Size.weightVal).sum

theorem pass1_go (specs : List Size) (total_emu : ℤ) (a : ℤ) (b : ℚ) :
    specs.foldl
      (fun acc s =>
        match s with
        | .auto w => (acc.1, acc.2 + w)
        | .inch i => (acc.1 + pyInt (i * EMUS_PER_INCH), acc.2)
        | .centimeter c => (acc.1 + pyInt (c * EMUS_PER_CM), acc.2)
        | .ratio r => (acc.1 + pyInt (total_emu * r), acc.2))
      (a, b)
    = (a + concreteFixed specs total_emu, b + totalWeights specs) := by
  induction specs generalizing a b with
  | nil => simp [concreteFixed, totalWeights]
  | cons s rest ih =>
      cases s <;>
        simp [concreteFixed, totalWeights, List.foldl_cons, ih,
          Size.fixedVal, Size.weightVal] <;> ring

theorem pass1_eq (specs : List Size) (total_emu : ℤ) :
    pass1 specs total_emu
      = (concreteFixed specs total_emu, totalWeights specs) := by
  unfold pass1
  rw [pass1_go]
  simp

theorem resolve_length_span_eq (specs : List Size) (total_emu : ℤ) :
    resolve_length_span specs total_emu
      = if total_emu - concreteFixed specs total_emu < 0 then
          .error .overflow
        else
          specs.mapM (fun s =>
            s.resolve total_emu (total_emu - concreteFixed specs total_emu)
              (totalWeights specs)) := by
  unfold resolve_length_span
  rw [pass1_eq]

theorem listMapM_ok {α β ε : Type} (f : α → Except ε β) (g : α → β)
    (l : List α) (h : ∀ x ∈ l, f x = .ok (g x)) :
    l.mapM f = .ok (l.map g) := by
  induction l with
  | nil => rfl
  | cons x rest ih =>
      rw [List.mapM_cons, h x (by simp), ih (fun y hy => h y (by simp [hy]))]
      simp [bind, Except.bind, pure, Except.pure]

theorem listMapM_isOk {α β ε : Type} (f : α → Except ε β)
    (l : List α) (h : ∀ x ∈ l, ∃ v, f x = .ok v) :
    ∃ out, l.mapM f = .ok out := by
  induction l with
  | nil => exact ⟨[], rfl⟩
  | cons x rest ih =>
      obtain ⟨v, hv⟩ := h x (by simp)
      obtain ⟨out, hout⟩ := ih (fun y hy => h y (by simp [hy]))
      exact ⟨v :: out, by
        rw [List.mapM_cons, hv, hout]
        simp [bind, Except.bind, pure, Except.pure]⟩

/-- `pyInt` agrees with the floor on non-negative arguments. -/
theorem pyInt_eq_floor {q : ℚ} (h : 0 ≤ q) : pyInt q = ⌊q⌋ := by
  simp [pyInt, not_lt.mpr h]

theorem totalWeights_pos (specs : List Size)
    (hw : ∀ w : ℚ, Size.auto w ∈ specs → 0 < w)
    {w0 : ℚ} (hmem : Size.auto w0 ∈ specs) :
    0 < totalWeights specs := by
  have h0 : 0 < w0 := hw w0 hmem
  have hnn : ∀ x ∈ specs.map Size.weightVal, 0 ≤ x := by
    intro x hx
    obtain ⟨s, hs, rfl⟩ := List.mem_map.mp hx
    cases s with
    | auto w => exact le_of_lt (hw w hs)
    | inch i => simp [Size.weightVal]
    | centimeter c => simp [Size.weightVal]
    | ratio r => simp [Size.weightVal]
  have hin : w0 ∈ specs.map Size.weightVal := by
    have : Size.weightVal (Size.auto w0) = w0 := rfl
    exact this ▸ List.mem_map_of_mem Size.weightVal hmem
  exact lt_of_lt_of_le h0 (List.single_le_sum hnn _ hin)

/-- C2: if the pass-1 concrete sum of the Absolute and Ratio units exceeds
`total_emu` (available space negative), `resolve_length_span` raises
OverflowError and returns no partial result. -/
theorem c2_overflow (specs : List Size) (total_emu : ℤ)
    (h : total_emu < (pass1 specs total_emu).1) :
    resolve_length_span specs total_emu = Except.error LayoutErr.overflow := by
  rw [pass1_eq] at h
  rw [resolve_length_span_eq, if_pos (by omega)]

/-- C2 witness, Scenario B: two Ratio units 0.5 and 0.6 over extent 900
(concrete sum 450 + 540 = 990 > 900) raise OverflowError. -/
theorem c2_witness :
    resolve_length_span [Size.ratio (1/2), Size.ratio (3/5)] 900
      = Except.error LayoutErr.overflow :=
  c2_overflow _ _ (by
    rw [pass1_eq]
    show (900 : ℤ) < concreteFixed _ _
    norm_num [concreteFixed, Size.fixedVal, pyInt])

/-- C7 counterexample: with a negative `total_emu` the empty units list
does NOT resolve to the empty list — `avail = total_emu < 0` raises
OverflowError, refuting "regardless of the value of total_extent". -/
theorem c7_counterexample :
    resolve_length_span [] (-1) = Except.error LayoutErr.overflow := rfl

/-- C7 (amended): for every non-negative `total_emu`, the empty units list
resolves to the empty length list with no error. -/
theorem c7_empty (total_emu : ℤ) (h : 0 ≤ total_emu) :
    resolve_length_span [] total_emu = Except.ok [] := by
  have hc : ¬ total_emu - concreteFixed [] total_emu < 0 := by
    simp only [concreteFixed, List.map_nil, List.sum_nil]
    omega
  rw [resolve_length_span_eq, if_neg hc]
  rfl

/-- C7 witness: empty list over extent 5. -/
theorem c7_witness : resolve_length_span [] 5 = Except.ok [] :=
  c7_empty 5 (by decide)

/-- C9: when every Weight (`Auto`) unit in the list carries a positive
weight — the invariant its constructor enforces — `resolve_length_span`
never raises the zero-total-weight ValueError of `Auto.resolve`. -/
theorem c9_no_value_error (specs : List Size) (total_emu : ℤ)
    (hw : ∀ w : ℚ, Size.auto w ∈ specs → 0 < w) :
    resolve_length_span specs total_emu ≠ Except.error LayoutErr.valueError := by
  rw [resolve_length_span_eq]
  by_cases hc : total_emu - concreteFixed specs total_emu < 0
  · simp [hc]
  · rw [if_neg hc]
    have hall : ∀ s ∈ specs, ∃ v,
        s.resolve total_emu (total_emu - concreteFixed specs total_emu)
          (totalWeights specs) = .ok v := by
      intro s hs
      cases s with
      | auto w =>
          have hW := totalWeights_pos specs hw hs
          exact ⟨pyInt (((total_emu - concreteFixed specs total_emu) : ℤ)
              * (w / totalWeights specs)),
            by simp [Size.resolve, not_le.mpr hW]⟩
      | inch i => exact ⟨_, rfl⟩
      | centimeter c => exact ⟨_, rfl⟩
      | ratio r => exact ⟨_, rfl⟩
    obtain ⟨out, hout⟩ := listMapM_isOk _ specs hall
    rw [hout]
    simp

/-- C9 witness: a single `Auto 1` over extent 10 never yields the
ValueError. -/
theorem c9_witness :
    resolve_length_span [Size.auto 1] 10 ≠ Except.error LayoutErr.valueError :=
  c9_no_value_error _ _ (by
    intro w hw
    simp only [List.mem_singleton, Size.auto.injEq] at hw
    subst hw
    norm_num)

theorem sum_floor_le_sum (l : List ℚ) :
    (((l.map (fun q => ⌊q⌋)).sum : ℤ) : ℚ) ≤ l.sum := by
  induction l with
  | nil => simp
  | cons q rest ih =>
      simp only [List.map_cons, List.sum_cons, Int.cast_add]
      exact add_le_add (Int.floor_le q) ih

/-- C4: with only Absolute/Ratio units whose pass-1 concrete sum fits in
the (non-negative) total extent, `resolve_length_span` succeeds, each unit
resolves in pass 2 to its pass-1 value regardless of the
available-space/total-weight context, and the returned lengths sum to the
`total_fixed` accumulated in pass 1, with no redistribution. -/
theorem c4_fixed_only (specs : List Size) (total_emu : ℤ)
    (hna : ∀ s ∈ specs, s.isAuto = false)
    (hle : concreteFixed specs total_emu ≤ total_emu)
    (ht : 0 ≤ total_emu) :
    resolve_length_span specs total_emu
        = Except.ok (specs.map (fun s => s.fixedVal total_emu)) ∧
    (specs.map (fun s => s.fixedVal total_emu)).sum
        = (pass1 specs total_emu).1 ∧
    (∀ s ∈ specs, ∀ (avail : ℤ) (tw : ℚ),
        s.resolve total_emu avail tw = .ok (s.fixedVal total_emu)) := by
  have hstable : ∀ s ∈ specs, ∀ (avail : ℤ) (tw : ℚ),
      s.resolve total_emu avail tw = .ok (s.fixedVal total_emu) := by
    intro s hs avail tw
    cases s with
    | auto w => exact absurd (hna _ hs) (by simp [Size.isAuto])
    | inch i => rfl
    | centimeter c => rfl
    | ratio r => rfl
  refine ⟨?_, ?_, hstable⟩
  · rw [resolve_length_span_eq, if_neg (by omega)]
    exact listMapM_ok _ _ _ (fun s hs => hstable s hs _ _)
  · rw [pass1_eq]
    rfl

/-- C4 witness: `[Inch(1), Ratio(0.5)]` over extent 2000000 resolves to
`[914400, 1000000]`, summing to the pass-1 concrete sum. -/
theorem c4_witness :
    resolve_length_span [Size.inch 1, Size.ratio (1/2)] 2000000
        = Except.ok ([Size.inch 1, Size.ratio (1/2)].map
            (fun s => s.fixedVal 2000000)) ∧
    ([Size.inch 1, Size.ratio (1/2)].map (fun s => s.fixedVal 2000000)).sum
        = (pass1 [Size.inch 1, Size.ratio (1/2)] 2000000).1 ∧
    (∀ s ∈ [Size.inch 1, Size.ratio (1/2)], ∀ (avail : ℤ) (tw : ℚ),
        s.resolve 2000000 avail tw = .ok (s.fixedVal 2000000)) :=
  c4_fixed_only _ _ (by decide)
    (by norm_num [concreteFixed, Size.fixedVal, pyInt, EMUS_PER_INCH])
    (by decide)

/-- C3: for a units list of Weight (`Auto`) entries `w_1..w_n` (n ≥ 1,
each positive as the constructor guarantees) over a non-negative extent
`T`, the i-th returned length is `⌊T * w_i / sum(w)⌋` and the lengths sum
to at most `T` (the floor remainder is never redistributed). -/
theorem c3_weights (ws : List ℚ) (total_emu : ℤ)
    (hne : ws ≠ []) (hpos : ∀ w ∈ ws, 0 < w) (ht : 0 ≤ total_emu) :
    resolve_length_span (ws.map Size.auto) total_emu
        = Except.ok (ws.map (fun w => ⌊(total_emu : ℚ) * w / ws.sum⌋)) ∧
    (ws.map (fun w => ⌊(total_emu : ℚ) * w / ws.sum⌋)).sum ≤ total_emu := by
  have hW : 0 < ws.sum := List.sum_pos ws hpos hne
  have hCF : concreteFixed (ws.map Size.auto) total_emu = 0 := by
    simp [concreteFixed, List.map_map, Function.comp_def, Size.fixedVal]
  have hTW : totalWeights (ws.map Size.auto) = ws.sum := by
    simp [totalWeights, List.map_map, Function.comp_def, Size.weightVal,
      List.map_id']
  constructor
  · rw [resolve_length_span_eq, if_neg (by omega)]
    rw [listMapM_ok _
      (fun s => ⌊(total_emu : ℚ) * s.weightVal / ws.sum⌋) _ ?_]
    · rw [List.map_map]
      rfl
    · intro s hs
      obtain ⟨w, hw, rfl⟩ := List.mem_map.mp hs
      have hwpos := hpos w hw
      simp only [Size.resolve, hCF, sub_zero, hTW, Size.weightVal]
      rw [if_neg (not_le.mpr hW)]
      congr 1
      rw [pyInt_eq_floor (by positivity)]
      congr 1
      ring
  · have hmm : ws.map (fun w => ⌊(total_emu : ℚ) * w / ws.sum⌋)
        = (ws.map (fun w => (total_emu : ℚ) * w / ws.sum)).map
            (fun q => ⌊q⌋) := by
      rw [List.map_map]
      rfl
    have hcast : (((ws.map (fun w => ⌊(total_emu : ℚ) * w / ws.sum⌋)).sum
        : ℤ) : ℚ) ≤ (total_emu : ℚ) := by
      rw [hmm]
      refine le_trans (sum_floor_le_sum _) ?_
      have : ws.map (fun w => (total_emu : ℚ) * w / ws.sum)
          = ws.map (fun w => ((total_emu : ℚ) / ws.sum) * w) := by
        apply List.map_congr_left
        intro w _
        ring
      rw [this, List.sum_map_mul_left]
      rw [List.map_id']
      rw [div_mul_cancel₀ _ (ne_of_gt hW)]
    exact_mod_cast hcast

/-- C3 witness, Scenario C: `[Weight(2), Weight(1)]` over a 300-wide
extent gives `[⌊300*2/3⌋, ⌊300*1/3⌋] = [200, 100]`, summing to ≤ 300. -/
theorem c3_witness :
    resolve_length_span ([(2 : ℚ), 1].map Size.auto) 300
        = Except.ok ([(2 : ℚ), 1].map
            (fun w => ⌊(300 : ℚ) * w / [(2 : ℚ), 1].sum⌋)) ∧
    ([(2 : ℚ), 1].map
        (fun w => ⌊(300 : ℚ) * w / [(2 : ℚ), 1].sum⌋)).sum ≤ 300 :=
  c3_weights [2, 1] 300 (by decide) (by decide) (by decide)

/-- C10: `Inch`/`Centimeter` constructors accept any value with no
validation (unlike `Ratio.mk?` and `Auto.mk?`, which reject out-of-range
arguments), and `resolve_length_span [Inch(-1)] 100` succeeds, returning a
negative length, with the computed available space `100 - total_fixed`
exceeding the total extent 100. -/
theorem c10_unvalidated :
    (∀ q : ℚ, Inch.mk q = Size.inch q) ∧
    (∀ q : ℚ, Centimeter.mk q = Size.centimeter q) ∧
    Ratio.mk? (3/2) = Except.error LayoutErr.valueError ∧
    Auto.mk? 0 = Except.error LayoutErr.valueError ∧
    resolve_length_span [Inch.mk (-1)] 100 = Except.ok [-914400] ∧
    (-914400 : ℤ) < 0 ∧
    (100 : ℤ) < 100 - (pass1 [Inch.mk (-1)] 100).1 := by
  refine ⟨fun _ => rfl, fun _ => rfl, ?_, ?_, ?_, by norm_num, ?_⟩
  · norm_num [Ratio.mk?]
  · norm_num [Auto.mk?]
  · rw [Inch.mk, resolve_length_span_eq]
    have hc : ¬ ((100 : ℤ) - concreteFixed [Size.inch (-1)] 100 < 0) := by
      norm_num [concreteFixed, Size.fixedVal, pyInt, EMUS_PER_INCH,
        Int.ceil_neg]
    rw [if_neg hc,
      listMapM_ok _ (fun s => s.fixedVal 100) _
        (by intro s hs; simp at hs; subst hs; rfl)]
    norm_num [Size.fixedVal, pyInt, EMUS_PER_INCH, Int.ceil_neg]
  · rw [pass1_eq]
    norm_num [Inch.mk, concreteFixed, Size.fixedVal, pyInt, EMUS_PER_INCH,
      Int.ceil_neg]

/-- `Rect {x, y, width, height}` in EMUs (layout.py lines 20-26, core.py
lines 18-25; the two drafts' dataclasses are identical). -/
structure Rect where
  x : ℤ
  y : ℤ
  width : ℤ
  height : ℤ
  deriving DecidableEq, Repr

/-- The column-building cursor loop shared by core.py `Rect.split_vertical`
(lines 30-35) and layout.py `Rect.split_horizontal` (lines 30-35):
`cursor` starts at the source `x`; each length `w` yields
`Rect(cursor, y, w, height)` and advances the cursor by `w`. -/
def mkCols (cursor y height : ℤ) : List ℤ → List Rect
  | [] => []
  | w :: ws => ⟨cursor, y, w, height⟩ :: mkCols (cursor + w) y height ws

/-- The row-building cursor loop shared by core.py `Rect.split_horizontal`
(lines 40-45) and layout.py `Rect.split_vertical` (lines 39-44):
`cursor` starts at the source `y`; each length `h` yields
`Rect(x, cursor, width, h)` and advances the cursor by `h`. -/
def mkRows (x cursor width : ℤ) : List ℤ → List Rect
  | [] => []
  | h :: hs => ⟨x, cursor, width, h⟩ :: mkRows x (cursor + h) width hs

namespace CoreRect

/-- core.py `Rect.split_vertical` (lines 27-35): resolves the specs over
the source `width` and builds side-by-side columns. -/
def split_vertical (r : Rect) (specs : List Size) :
    Except LayoutErr (List Rect) :=
  (resolve_length_span specs r.width).map (mkCols r.x r.y r.height)

/-- core.py `Rect.split_horizontal` (lines 37-45): resolves the specs over
the source `height` and builds stacked rows. -/
def split_horizontal (r : Rect) (specs : List Size) :
    Except LayoutErr (List Rect) :=
  (resolve_length_span specs r.height).map (mkRows r.x r.y r.width)

end CoreRect

namespace LayoutRect

/-- layout.py `Rect.split_horizontal` (lines 28-35): resolves the specs
over the source `width` and builds side-by-side columns — the axis
opposite to core.py's method of the same name. -/
def split_horizontal (r : Rect) (specs : List Size) :
    Except LayoutErr (List Rect) :=
  (resolve_length_span specs r.width).map (mkCols r.x r.y r.height)

/-- layout.py `Rect.split_vertical` (lines 37-44): resolves the specs over
the source `height` and builds stacked rows — the axis opposite to
core.py's method of the same name. -/
def split_vertical (r : Rect) (specs : List Size) :
    Except LayoutErr (List Rect) :=
  (resolve_length_span specs r.height).map (mkRows r.x r.y r.width)

end LayoutRect

theorem mkCols_length (cursor y height : ℤ) (ws : List ℤ) :
    (mkCols cursor y height ws).length = ws.length := by
  induction ws generalizing cursor with
  | nil => rfl
  | cons w rest ih => simp [mkCols, ih]

theorem mkCols_getElem? (cursor y height : ℤ) (ws : List ℤ) (i : ℕ)
    (w : ℤ) (hw : ws[i]? = some w) :
    (mkCols cursor y height ws)[i]?
      = some ⟨cursor + (ws.take i).sum, y, w, height⟩ := by
  induction ws generalizing cursor i with
  | nil => simp at hw
  | cons w0 rest ih =>
      cases i with
      | zero =>
          simp at hw
          simp [mkCols, hw]
      | succ j =>
          simp only [List.getElem?_cons_succ] at hw
          simp only [mkCols, List.getElem?_cons_succ, ih _ _ hw,
            List.take_succ_cons, List.sum_cons]
          congr 2
          ring

theorem getLast?_cons_of_tail_ne_nil {α : Type} (a : α) (l : List α)
    (h : l ≠ []) : (a :: l).getLast? = l.getLast? := by
  cases l with
  | nil => exact absurd rfl h
  | cons b t => exact List.getLast?_cons_cons

theorem mkCols_getLast? (cursor y height : ℤ) (ws : List ℤ) (lr : Rect)
    (h : (mkCols cursor y height ws).getLast? = some lr) :
    lr.x + lr.width = cursor + ws.sum := by
  induction ws generalizing cursor with
  | nil => simp [mkCols] at h
  | cons w rest ih =>
      cases rest with
      | nil =>
          simp [mkCols] at h
          subst h
          simp
      | cons w1 rest1 =>
          rw [mkCols, getLast?_cons_of_tail_ne_nil _ _ (by simp [mkCols])] at h
          have := ih (cursor + w) h
          rw [this]
          simp
          ring

theorem mkRows_length (x cursor width : ℤ) (hs : List ℤ) :
    (mkRows x cursor width hs).length = hs.length := by
  induction hs generalizing cursor with
  | nil => rfl
  | cons h rest ih => simp [mkRows, ih]

theorem mkRows_getElem? (x cursor width : ℤ) (hs : List ℤ) (i : ℕ)
    (hgt : ℤ) (hh : hs[i]? = some hgt) :
    (mkRows x cursor width hs)[i]?
      = some ⟨x, cursor + (hs.take i).sum, width, hgt⟩ := by
  induction hs generalizing cursor i with
  | nil => simp at hh
  | cons h0 rest ih =>
      cases i with
      | zero =>
          simp at hh
          simp [mkRows, hh]
      | succ j =>
          simp only [List.getElem?_cons_succ] at hh
          simp only [mkRows, List.getElem?_cons_succ, ih _ _ hh,
            List.take_succ_cons, List.sum_cons]
          congr 2
          ring

theorem mkRows_getLast? (x cursor width : ℤ) (hs : List ℤ) (lr : Rect)
    (h : (mkRows x cursor width hs).getLast? = some lr) :
    lr.y + lr.height = cursor + hs.sum := by
  induction hs generalizing cursor with
  | nil => simp [mkRows] at h
  | cons h0 rest ih =>
      cases rest with
      | nil =>
          simp [mkRows] at h
          subst h
          simp
      | cons h1 rest1 =>
          rw [mkRows, getLast?_cons_of_tail_ne_nil _ _ (by simp [mkRows])] at h
          have := ih (cursor + h0) h
          rw [this]
          simp
          ring

theorem listMapM_length {α β ε : Type} (f : α → Except ε β) :
    ∀ (l : List α) (out : List β), l.mapM f = .ok out → out.length = l.length := by
  intro l
  induction l with
  | nil =>
      intro out h
      rw [List.mapM_nil] at h
      cases h
      rfl
  | cons x rest ih =>
      intro out h
      rw [List.mapM_cons] at h
      cases hf : f x with
      | error e => rw [hf] at h; simp [bind, Except.bind] at h
      | ok v =>
          rw [hf] at h
          cases hr : rest.mapM f with
          | error e => rw [hr] at h; simp [bind, Except.bind] at h
          | ok vs =>
              rw [hr] at h
              simp only [bind, Except.bind, pure, Except.pure,
                Except.ok.injEq] at h
              subst h
              simp [ih vs hr]

theorem resolve_length_span_length (specs : List Size) (total_emu : ℤ)
    (out : List ℤ) (h : resolve_length_span specs total_emu = .ok out) :
    out.length = specs.length := by
  rw [resolve_length_span_eq] at h
  by_cases hc : total_emu - concreteFixed specs total_emu < 0
  · rw [if_pos hc] at h; cases h
  · rw [if_neg hc] at h
    exact listMapM_length _ specs out h

theorem mkCols_adjacent (cursor y height : ℤ) (ws : List ℤ) :
    ∀ (i : ℕ) (a b : Rect), (mkCols cursor y height ws)[i]? = some a →
      (mkCols cursor y height ws)[i+1]? = some b →
      b.x = a.x + a.width := by
  induction ws generalizing cursor with
  | nil => intro i a b ha _; simp [mkCols] at ha
  | cons w rest ih =>
      intro i a b ha hb
      cases i with
      | zero =>
          rw [mkCols, List.getElem?_cons_zero] at ha
          cases ha
          rw [mkCols, List.getElem?_cons_succ] at hb
          cases rest with
          | nil => simp [mkCols] at hb
          | cons w1 r1 =>
              rw [mkCols, List.getElem?_cons_zero] at hb
              cases hb
              rfl
      | succ j =>
          rw [mkCols, List.getElem?_cons_succ] at ha hb
          exact ih (cursor + w) j a b ha hb

theorem mkRows_adjacent (x cursor width : ℤ) (hs : List ℤ) :
    ∀ (i : ℕ) (a b : Rect), (mkRows x cursor width hs)[i]? = some a →
      (mkRows x cursor width hs)[i+1]? = some b →
      b.y = a.y + a.height := by
  induction hs generalizing cursor with
  | nil => intro i a b ha _; simp [mkRows] at ha
  | cons h0 rest ih =>
      intro i a b ha hb
      cases i with
      | zero =>
          rw [mkRows, List.getElem?_cons_zero] at ha
          cases ha
          rw [mkRows, List.getElem?_cons_succ] at hb
          cases rest with
          | nil => simp [mkRows] at hb
          | cons h1 r1 =>
              rw [mkRows, List.getElem?_cons_zero] at hb
              cases hb
              rfl
      | succ j =>
          rw [mkRows, List.getElem?_cons_succ] at ha hb
          exact ih (cursor + h0) j a b ha hb

/-- C1 counterexample.  Two failures of the claim at concrete inputs:
(1) `core.py`'s `Rect(0,0,100,50).split_vertical([Ratio(1/3)])` resolves
successfully to a single column of width 33, whose far edge 0+33 is NOT
flush with the source's far edge 0+100 — floor truncation leaves a gap;
(2) `layout.py`'s `Rect.split_vertical` divides the HEIGHT into rows
(here `[Weight(1), Weight(1)]` gives two stacked rows of height 25), so it
does not preserve the source's `y`/`height` as the claim requires of
`split_vertical`. -/
theorem c1_counterexample :
    CoreRect.split_vertical ⟨0, 0, 100, 50⟩ [Size.ratio (1/3)]
      = Except.ok [⟨0, 0, 33, 50⟩] ∧
    (0 + 33 : ℤ) ≠ 0 + 100 ∧
    LayoutRect.split_vertical ⟨0, 0, 100, 50⟩ [Size.auto 1, Size.auto 1]
      = Except.ok [⟨0, 0, 100, 25⟩, ⟨0, 25, 100, 25⟩] ∧
    ((⟨0, 25, 100, 25⟩ : Rect).y ≠ (⟨0, 0, 100, 50⟩ : Rect).y ∧
     (⟨0, 25, 100, 25⟩ : Rect).height ≠ (⟨0, 0, 100, 50⟩ : Rect).height) := by
  have h1 : resolve_length_span [Size.ratio (1/3)] 100 = .ok [33] := by
    rw [resolve_length_span_eq,
      if_neg (by norm_num [concreteFixed, Size.fixedVal, pyInt]),
      listMapM_ok _ (fun s => s.fixedVal 100) _
        (by intro s hs; simp at hs; subst hs; rfl)]
    norm_num [Size.fixedVal, pyInt]
  have h2 : resolve_length_span [Size.auto 1, Size.auto 1] 50
      = .ok [25, 25] := by
    have hTW : totalWeights [Size.auto 1, Size.auto 1] = 2 := by
      norm_num [totalWeights, Size.weightVal]
    have hCF : concreteFixed [Size.auto 1, Size.auto 1] 50 = 0 := by
      norm_num [concreteFixed, Size.fixedVal]
    rw [resolve_length_span_eq, if_neg (by rw [hCF]; norm_num),
      listMapM_ok _ (fun _ => (25 : ℤ)) _ ?_]
    · rfl
    · intro s hs
      have hs' : s = Size.auto 1 := by
        simp only [List.mem_cons, List.not_mem_nil, or_false] at hs
        rcases hs with h | h <;> exact h
      subst hs'
      rw [Size.resolve, hCF, hTW]
      norm_num [pyInt]
  refine ⟨?_, by norm_num, ?_, by norm_num, by norm_num⟩
  · rw [CoreRect.split_vertical]
    show (resolve_length_span [Size.ratio (1/3)] 100).map _ = _
    rw [h1]
    rfl
  · rw [LayoutRect.split_vertical]
    show (resolve_length_span [Size.auto 1, Size.auto 1] 50).map _ = _
    rw [h2]
    rfl

/-- C1 (amended): whenever span resolution succeeds, core.py's
`split_vertical` divides the width into one column per unit (preserving
`y`/`height`) and its `split_horizontal` divides the height into one row
per unit (preserving `x`/`width`); in layout.py's `Rect` the two method
names are interchanged (`split_horizontal` builds the columns,
`split_vertical` the rows).  In all four methods the rectangles come back
in input order, each position along the split axis is the source origin
plus the cumulative sum of the prior resolved lengths, consecutive
rectangles are edge-to-edge with no gaps or overlaps, and the last edge
lies at the origin plus the sum of all resolved lengths — which may fall
short of the source rect's far edge. -/
theorem c1_amended (r : Rect) (specsV specsH : List Size)
    (wsV wsH : List ℤ)
    (hV : resolve_length_span specsV r.width = .ok wsV)
    (hH : resolve_length_span specsH r.height = .ok wsH) :
    (∃ rects, CoreRect.split_vertical r specsV = .ok rects ∧
       LayoutRect.split_horizontal r specsV = .ok rects ∧
       rects.length = specsV.length ∧
       (∀ (i : ℕ) (w : ℤ), wsV[i]? = some w →
          rects[i]? = some ⟨r.x + (wsV.take i).sum, r.y, w, r.height⟩) ∧
       (∀ (i : ℕ) (a b : Rect), rects[i]? = some a →
          rects[i+1]? = some b → b.x = a.x + a.width) ∧
       (∀ lr, rects.getLast? = some lr →
          lr.x + lr.width = r.x + wsV.sum)) ∧
    (∃ rects, CoreRect.split_horizontal r specsH = .ok rects ∧
       LayoutRect.split_vertical r specsH = .ok rects ∧
       rects.length = specsH.length ∧
       (∀ (i : ℕ) (h : ℤ), wsH[i]? = some h →
          rects[i]? = some ⟨r.x, r.y + (wsH.take i).sum, r.width, h⟩) ∧
       (∀ (i : ℕ) (a b : Rect), rects[i]? = some a →
          rects[i+1]? = some b → b.y = a.y + a.height) ∧
       (∀ lr, rects.getLast? = some lr →
          lr.y + lr.height = r.y + wsH.sum)) := by
  constructor
  · refine ⟨mkCols r.x r.y r.height wsV, ?_, ?_, ?_, ?_, ?_, ?_⟩
    · rw [CoreRect.split_vertical, hV]; rfl
    · rw [LayoutRect.split_horizontal, hV]; rfl
    · rw [mkCols_length]
      exact resolve_length_span_length specsV r.width wsV hV
    · intro i w hw; exact mkCols_getElem? _ _ _ _ _ _ hw
    · exact mkCols_adjacent _ _ _ _
    · intro lr hlr; exact mkCols_getLast? _ _ _ _ _ hlr
  · refine ⟨mkRows r.x r.y r.width wsH, ?_, ?_, ?_, ?_, ?_, ?_⟩
    · rw [CoreRect.split_horizontal, hH]; rfl
    · rw [LayoutRect.split_vertical, hH]; rfl
    · rw [mkRows_length]
      exact resolve_length_span_length specsH r.height wsH hH
    · intro i h hh; exact mkRows_getElem? _ _ _ _ _ _ hh
    · exact mkRows_adjacent _ _ _ _
    · intro lr hlr; exact mkRows_getLast? _ _ _ _ _ hlr

/-- C1 witness: `Rect(0,0,100,50)` split into columns by `[Ratio(1)]`
(resolving to `[100]` over the width) and into rows by `[Weight(1)]`
(resolving to `[50]` over the height). -/
theorem c1_amended_witness :
    (∃ rects,
       CoreRect.split_vertical ⟨0, 0, 100, 50⟩ [Size.ratio 1] = .ok rects ∧
       LayoutRect.split_horizontal ⟨0, 0, 100, 50⟩ [Size.ratio 1]
         = .ok rects ∧
       rects.length = [Size.ratio 1].length ∧
       (∀ (i : ℕ) (w : ℤ), [(100 : ℤ)][i]? = some w →
          rects[i]? = some ⟨(0 : ℤ) + ([(100 : ℤ)].take i).sum, 0, w, 50⟩) ∧
       (∀ (i : ℕ) (a b : Rect), rects[i]? = some a →
          rects[i+1]? = some b → b.x = a.x + a.width) ∧
       (∀ lr, rects.getLast? = some lr →
          lr.x + lr.width = (0 : ℤ) + [(100 : ℤ)].sum)) ∧
    (∃ rects,
       CoreRect.split_horizontal ⟨0, 0, 100, 50⟩ [Size.auto 1]
         = .ok rects ∧
       LayoutRect.split_vertical ⟨0, 0, 100, 50⟩ [Size.auto 1]
         = .ok rects ∧
       rects.length = [Size.auto 1].length ∧
       (∀ (i : ℕ) (h : ℤ), [(50 : ℤ)][i]? = some h →
          rects[i]? = some ⟨0, (0 : ℤ) + ([(50 : ℤ)].take i).sum, 100, h⟩) ∧
       (∀ (i : ℕ) (a b : Rect), rects[i]? = some a →
          rects[i+1]? = some b → b.y = a.y + a.height) ∧
       (∀ lr, rects.getLast? = some lr →
          lr.y + lr.height = (0 : ℤ) + [(50 : ℤ)].sum)) :=
  c1_amended ⟨0, 0, 100, 50⟩ [Size.ratio 1] [Size.auto 1] [100] [50]
    (by
      rw [resolve_length_span_eq,
        if_neg (by norm_num [concreteFixed, Size.fixedVal, pyInt]),
        listMapM_ok _ (fun s => s.fixedVal 100) _
          (by intro s hs; simp at hs; subst hs; rfl)]
      norm_num [Size.fixedVal, pyInt])
    (by
      have hTW : totalWeights [Size.auto 1] = 1 := by
        norm_num [totalWeights, Size.weightVal]
      have hCF : concreteFixed [Size.auto 1] 50 = 0 := by
        norm_num [concreteFixed, Size.fixedVal]
      rw [resolve_length_span_eq, if_neg (by rw [hCF]; norm_num),
        listMapM_ok _ (fun _ => (50 : ℤ)) _ ?_]
      · rfl
      · intro s hs
        simp only [List.mem_singleton] at hs
        subst hs
        rw [Size.resolve, hCF, hTW]
        norm_num [pyInt])

/-- The two valid split directions recorded on `Area.split_direction`
(layout.py line 54; the string aliases `"v"`/`"h"` are normalized to these
by `_apply_split`, lines 137-140). -/
inductive Dir where
  | vertical
  | horizontal
  deriving DecidableEq, Repr

/-- layout.py's `Area` tree node (lines 46-54): `children`, the optional
assigned `length : Size`, and `split_direction`.  The `aid` field models
Python object identity — every constructed `Area` object is distinct, and
`list.index(self)` (used by `parent_pos`) compares by identity; a tree of
areas therefore has pairwise-distinct `aid`s (`Area.NodupIds`).  The
mutable `_rect`/`_parent` state is modelled separately: `Area.layout`
returns a resolved copy, and parent links are implicit in the rooted
tree. -/
inductive Area where
  | mk (aid : ℕ) (length : Option Size) (split : Option Dir)
      (children : List Area)

def Area.aid : Area → ℕ
  | .mk a _ _ _ => a

def Area.length : Area → Option Size
  | .mk _ l _ _ => l

def Area.split : Area → Option Dir
  | .mk _ _ s _ => s

def Area.children : Area → List Area
  | .mk _ _ _ cs => cs

mutual

/-- `Area.walk` (layout.py lines 108-111): yield self, then each child's
walk, depth-first pre-order. -/
def Area.walk : Area → List Area
  | .mk a l s cs => .mk a l s cs :: Area.walkList cs

def Area.walkList : List Area → List Area
  | [] => []
  | c :: cs => c.walk ++ Area.walkList cs

end

/-- The object identities seen on a full pre-order walk. -/
def Area.ids (a : Area) : List ℕ := a.walk.map Area.aid

/-- All nodes of the tree are distinct Python objects: their modelled
identities are pairwise distinct. -/
def Area.NodupIds (a : Area) : Prop := a.ids.Nodup

/-- `Area._get_child` (layout.py lines 90-93): bounds-checked child
access, raising IndexError when out of range. -/
def Area.getChild (a : Area) (i : ℕ) : Except LayoutErr Area :=
  match a.children[i]? with
  | some c => .ok c
  | none => .error .indexError

/-- `Area.__getitem__` on a sequence of indices (layout.py lines 95-101):
the empty sequence returns the node itself, otherwise descend into
`_get_child(index[0])` with the rest. -/
def Area.getItem : Area → List ℕ → Except LayoutErr Area
  | a, [] => .ok a
  | a, i :: rest => do
      let c ← a.getChild i
      c.getItem rest

/-- `Area.parent_pos` (layout.py lines 76-78): the index Python's
`list.index(self)` — identity comparison, modelled as the first child with
the same `aid` — finds for `c` among `parent.children`. -/
def parentPos (parent c : Area) : ℕ :=
  parent.children.findIdx (fun x => x.aid == c.aid)

/-- `Area.pos` (layout.py lines 81-88) for the node addressed by index
path `p` below `root`: walking the `_parent` chain upward from that node
visits exactly the ancestors along `p`, each contributing its
`parent_pos`; the final reversal makes the collected indices top-down,
which is this top-down recursion. -/
def Area.posFrom : Area → List ℕ → Except LayoutErr (List ℕ)
  | _, [] => .ok []
  | a, i :: rest => do
      let c ← a.getChild i
      let q ← c.posFrom rest
      .ok (parentPos a c :: q)

theorem findIdx_key_of_nodup {α : Type} (key : α → ℕ) (l : List α) :
    ∀ (i : ℕ) (c : α), l[i]? = some c → (l.map key).Nodup →
      l.findIdx (fun x => key x == key c) = i := by
  induction l with
  | nil => intro i c hmem _; simp at hmem
  | cons a t ih =>
      intro i c hmem hnd
      cases i with
      | zero =>
          rw [List.getElem?_cons_zero] at hmem
          cases hmem
          simp [List.findIdx_cons]
      | succ j =>
          rw [List.getElem?_cons_succ] at hmem
          rw [List.map_cons] at hnd
          obtain ⟨hna, hnt⟩ := List.nodup_cons.mp hnd
          have hne : (key a == key c) = false := by
            refine beq_eq_false_iff_ne.mpr (fun he => hna ?_)
            rw [he]
            exact List.mem_map_of_mem key (List.getElem?_mem hmem)
          rw [List.findIdx_cons, hne, cond_false, ih j c hmem hnt]

theorem walk_sublist_of_mem (c : Area) (cs : List Area) (h : c ∈ cs) :
    c.walk.Sublist (Area.walkList cs) := by
  induction cs with
  | nil => simp at h
  | cons a t ih =>
      rw [Area.walkList]
      cases List.mem_cons.mp h with
      | inl he => rw [he]; exact List.sublist_append_left _ _
      | inr hm => exact (ih hm).trans (List.sublist_append_right _ _)

theorem children_sublist_walkList (cs : List Area) :
    cs.Sublist (Area.walkList cs) := by
  induction cs with
  | nil => simp [Area.walkList]
  | cons a t ih =>
      rw [Area.walkList]
      cases a with
      | mk i l s cs' =>
          rw [Area.walk, List.cons_append]
          exact List.cons_sublist_cons.mpr
            (ih.trans (List.sublist_append_right _ _))

theorem nodupIds_parts (a : ℕ) (l : Option Size) (s : Option Dir)
    (cs : List Area) (h : (Area.mk a l s cs).NodupIds) :
    (cs.map Area.aid).Nodup ∧ ∀ c ∈ cs, c.NodupIds := by
  rw [Area.NodupIds, Area.ids, Area.walk, List.map_cons] at h
  have ht : ((Area.walkList cs).map Area.aid).Nodup :=
    (List.nodup_cons.mp h).2
  constructor
  · exact ht.sublist ((children_sublist_walkList cs).map Area.aid)
  · intro c hc
    exact ht.sublist ((walk_sublist_of_mem c cs hc).map Area.aid)

/-- C5: in a rooted layout tree (pairwise-distinct object identities, as
Python guarantees), indexing the root with the index path that `Area.pos`
reports for the node at path `p` returns that same node: `pos` recomputes
exactly `p`, so `root[node.pos]` is the node found at `p`.  The root's own
path is empty and indexing any node with the empty sequence returns the
node itself. -/
theorem c5_path_roundtrip (root : Area) (p : List ℕ) (n : Area)
    (hnd : root.NodupIds) (h : root.getItem p = .ok n) :
    root.posFrom p = .ok p ∧ root.getItem p = .ok n ∧
    n.getItem [] = .ok n ∧ root.posFrom [] = .ok [] := by
  refine ⟨?_, h, rfl, rfl⟩
  induction p generalizing root with
  | nil => rfl
  | cons i rest ih =>
      rw [Area.getItem] at h
      cases hic : root.getChild i with
      | error e =>
          rw [hic] at h
          simp [bind, Except.bind] at h
      | ok c =>
          rw [hic] at h
          simp only [bind, Except.bind] at h
          have hq : root.children[i]? = some c := by
            rw [Area.getChild] at hic
            cases hq' : root.children[i]? with
            | none => rw [hq'] at hic; cases hic
            | some c' => rw [hq'] at hic; cases hic; rfl
          cases root with
          | mk a l s cs =>
              obtain ⟨hcsnd, hchild⟩ := nodupIds_parts a l s cs hnd
              have hpp : parentPos (Area.mk a l s cs) c = i :=
                findIdx_key_of_nodup Area.aid cs i c hq hcsnd
              have hrec := ih c (hchild c (List.getElem?_mem hq)) h
              rw [Area.posFrom, hic]
              simp only [bind, Except.bind, hrec, hpp]

/-- C5 witness: a three-level tree with identities 0..3; the node at path
[1, 0] reports pos [1, 0], and the root and node behave as claimed on the
empty path. -/
theorem c5_witness :
    (Area.mk 0 none none [Area.mk 1 none none [],
        Area.mk 2 none none [Area.mk 3 none none []]]).posFrom [1, 0]
      = .ok [1, 0] ∧
    (Area.mk 0 none none [Area.mk 1 none none [],
        Area.mk 2 none none [Area.mk 3 none none []]]).getItem [1, 0]
      = .ok (Area.mk 3 none none []) ∧
    (Area.mk 3 none none []).getItem [] = .ok (Area.mk 3 none none []) ∧
    (Area.mk 0 none none [Area.mk 1 none none [],
        Area.mk 2 none none [Area.mk 3 none none []]]).posFrom []
      = .ok [] :=
  c5_path_roundtrip _ [1, 0] _
    (by
      simp [Area.NodupIds, Area.ids, Area.walk, Area.walkList, Area.aid])
    rfl

/-- The state of an `Area` tree after a layout walk: each node's `aid`,
its `_rect` (still `none` where `layout` was never called on the node),
and its children. -/
inductive RArea where
  | mk (aid : ℕ) (rect : Option Rect) (children : List RArea)

mutual

/-- A subtree on which `layout` was never called: every `_rect` is still
`None`. -/
def Area.unresolved : Area → RArea
  | .mk a _ _ cs => .mk a none (Area.unresolvedList cs)

def Area.unresolvedList : List Area → List RArea
  | [] => []
  | c :: cs => c.unresolved :: Area.unresolvedList cs

end

mutual

/-- `Area.layout(rect)` plus `Area._layout_children` (layout.py lines
119-134): assign `_rect := rect`; when `split_direction` is None return
without touching the children (they stay unresolved); otherwise resolve
the children's lengths (a child with no assigned `length` defaults to
`Auto(1)`) through the corresponding layout.py `Rect` split and recurse
over `zip(children, rects)`. -/
def Area.layout : Area → Rect → Except LayoutErr RArea
  | .mk a _ sp cs, r =>
    match sp with
    | none => .ok (.mk a (some r) (Area.unresolvedList cs))
    | some d =>
        let lengths := cs.map (fun c => c.length.getD (Size.auto 1))
        let rectsE :=
          match d with
          | .vertical => LayoutRect.split_vertical r lengths
          | .horizontal => LayoutRect.split_horizontal r lengths
        match rectsE with
        | .error e => .error e
        | .ok rects =>
            match Area.layoutList cs rects with
            | .error e => .error e
            | .ok rcs => .ok (.mk a (some r) rcs)

/-- The `for child, rect in zip(children, rects): child.layout(rect)`
loop (layout.py lines 133-134); `zip` stops at the shorter sequence. -/
def Area.layoutList : List Area → List Rect → Except LayoutErr (List RArea)
  | [], _ => .ok []
  | _ :: _, [] => .ok []
  | c :: cs, r :: rs =>
      match c.layout r with
      | .error e => .error e
      | .ok rc =>
          match Area.layoutList cs rs with
          | .error e => .error e
          | .ok rcs => .ok (rc :: rcs)

end

/-- core.py's `Box` tree (a `LayoutItem` whose `_layout_children`, lines
114-119, forwards the full rect to a single child, raises `LayoutError`
on more than one child, and does nothing on zero children).  A pure tree
of Boxes suffices for the box-forwarding claim. -/
inductive CoreBox where
  | mk (children : List CoreBox)

/-- The resolved state of a `CoreBox` tree. -/
inductive RBox where
  | mk (rect : Option Rect) (children : List RBox)

/-- core.py `LayoutItem.layout` (lines 71-79) specialised to `Box`
(lines 107-119): `self.rect = rect` then `_layout_children`. -/
def CoreBox.layout : CoreBox → Rect → Except LayoutErr RBox
  | .mk [], r => .ok (.mk (some r) [])
  | .mk [c], r =>
      match c.layout r with
      | .error e => .error e
      | .ok rc => .ok (.mk (some r) [rc])
  | .mk (_ :: _ :: _), _ => .error .layoutError

/-- C6 counterexample: in layout.py a plain box (no split axis) holding
exactly one child does NOT forward its rect — after `layout` the child's
`_rect` is still `None` — and a plain box holding two children lays out
without any structural error. -/
theorem c6_counterexample :
    (Area.mk 0 none none [Area.mk 1 none none []]).layout ⟨0, 0, 10, 10⟩
      = .ok (RArea.mk 0 (some ⟨0, 0, 10, 10⟩) [RArea.mk 1 none []]) ∧
    (some (⟨0, 0, 10, 10⟩ : Rect) ≠ (none : Option Rect)) ∧
    (Area.mk 0 none none [Area.mk 1 none none [],
        Area.mk 2 none none []]).layout ⟨0, 0, 10, 10⟩
      = .ok (RArea.mk 0 (some ⟨0, 0, 10, 10⟩)
          [RArea.mk 1 none [], RArea.mk 2 none []]) := by
  refine ⟨rfl, by simp, rfl⟩

/-- C6 (amended): in core.py's `Box` the claim holds as stated — a box
with exactly one child forwards its full rect unmodified to that child, a
box with more than one child fails with `LayoutError` at layout time, and
a box with zero children lays out successfully forwarding to no one.  In
layout.py, by contrast, a plain `Area` (no split direction) assigns its
own rect, forwards nothing to any child regardless of child count, and
never raises a structural error. -/
theorem c6_amended :
    (∀ (r : Rect), (CoreBox.mk []).layout r = .ok (RBox.mk (some r) [])) ∧
    (∀ (c : CoreBox) (r : Rect),
       (CoreBox.mk [c]).layout r
         = (c.layout r).map (fun rc => RBox.mk (some r) [rc])) ∧
    (∀ (c1 c2 : CoreBox) (rest : List CoreBox) (r : Rect),
       (CoreBox.mk (c1 :: c2 :: rest)).layout r
         = .error LayoutErr.layoutError) ∧
    (∀ (a : ℕ) (l : Option Size) (cs : List Area) (r : Rect),
       (Area.mk a l none cs).layout r
         = .ok (RArea.mk a (some r) (Area.unresolvedList cs))) := by
  refine ⟨fun r => rfl, ?_, fun c1 c2 rest r => rfl, fun a l cs r => rfl⟩
  intro c r
  rw [CoreBox.layout]
  cases c.layout r with
  | error e => rfl
  | ok rc => rfl

/-- `Area._apply_split` (layout.py lines 136-151), with the direction
given as the already-normalized enum (the string aliases `"v"`/`"h"` map
onto `Dir.vertical`/`Dir.horizontal`; an invalid string raises before
anything else and is outside this model).  On an empty lengths list it
raises `SpecMismatchError` before mutating anything; otherwise it replaces
`self.children` with one freshly created `Area(l)` per length (fresh
object identities modelled as 0..n-1), records the direction, and returns
the children. -/
def Area.applySplit (a : Area) (lengths : List Size) (d : Dir) :
    Except LayoutErr Area :=
  if lengths.isEmpty then .error .specMismatch
  else .ok (.mk a.aid a.length (some d)
    (lengths.enum.map (fun p => Area.mk p.1 (some p.2) none [])))

/-- `Area.split_vertical` as tree builder (layout.py lines 153-155). -/
def Area.split_vertical (a : Area) (lengths : List Size) :
    Except LayoutErr Area :=
  a.applySplit lengths .vertical

/-- `Area.split_horizontal` as tree builder (layout.py lines 157-159). -/
def Area.split_horizontal (a : Area) (lengths : List Size) :
    Except LayoutErr Area :=
  a.applySplit lengths .horizontal

/-- C8: for any node and non-empty units list, the tree-builder
`split_vertical`/`split_horizontal` replace the node's children with
exactly `len(units)` freshly created child boxes — the i-th pre-assigned
the i-th unit, with no grandchildren and no split of their own — and
record the split axis on the node, preserving its identity and own
assigned length; with an empty units list both fail with
`SpecMismatchError` (raised before any mutation, so no split is
recorded). -/
theorem c8_split_builder (a : Area) (lengths : List Size)
    (hne : lengths ≠ []) :
    (∃ a', a.split_vertical lengths = .ok a' ∧
       a'.aid = a.aid ∧ a'.length = a.length ∧
       a'.split = some Dir.vertical ∧
       a'.children.length = lengths.length ∧
       (∀ (i : ℕ) (l : Size), lengths[i]? = some l →
          a'.children[i]? = some (Area.mk i (some l) none []))) ∧
    (∃ a', a.split_horizontal lengths = .ok a' ∧
       a'.aid = a.aid ∧ a'.length = a.length ∧
       a'.split = some Dir.horizontal ∧
       a'.children.length = lengths.length ∧
       (∀ (i : ℕ) (l : Size), lengths[i]? = some l →
          a'.children[i]? = some (Area.mk i (some l) none []))) ∧
    (∀ d, a.applySplit [] d = .error .specMismatch) := by
  have hni : lengths.isEmpty = false := by
    cases lengths with
    | nil => exact absurd rfl hne
    | cons x t => rfl
  have hget : ∀ (i : ℕ) (l : Size), lengths[i]? = some l →
      (lengths.enum.map
        (fun p => Area.mk p.1 (some p.2) none []))[i]?
        = some (Area.mk i (some l) none []) := by
    intro i l hl
    rw [List.getElem?_map, List.getElem?_enum, hl]
    rfl
  refine ⟨⟨Area.mk a.aid a.length (some Dir.vertical)
      (lengths.enum.map (fun p => Area.mk p.1 (some p.2) none [])),
      ?_, rfl, rfl, rfl, by simp [Area.children],
      by intro i l hl; exact hget i l hl⟩,
    ⟨Area.mk a.aid a.length (some Dir.horizontal)
      (lengths.enum.map (fun p => Area.mk p.1 (some p.2) none [])),
      ?_, rfl, rfl, rfl, by simp [Area.children],
      by intro i l hl; exact hget i l hl⟩,
    fun d => rfl⟩
  · rw [Area.split_vertical, Area.applySplit, hni]
    rfl
  · rw [Area.split_horizontal, Area.applySplit, hni]
    rfl

/-- C8 witness: splitting a node (identity 7, one existing child) by
`[Weight(1), Ratio(1/2)]` in both directions, plus the empty-list
failure. -/
theorem c8_witness :
    (∃ a', (Area.mk 7 none none [Area.mk 8 none none []]).split_vertical
        [Size.auto 1, Size.ratio (1/2)] = .ok a' ∧
       a'.aid = (Area.mk 7 none none [Area.mk 8 none none []]).aid ∧
       a'.length = (Area.mk 7 none none [Area.mk 8 none none []]).length ∧
       a'.split = some Dir.vertical ∧
       a'.children.length = [Size.auto 1, Size.ratio (1/2)].length ∧
       (∀ (i : ℕ) (l : Size), [Size.auto 1, Size.ratio (1/2)][i]? = some l →
          a'.children[i]? = some (Area.mk i (some l) none []))) ∧
    (∃ a', (Area.mk 7 none none [Area.mk 8 none none []]).split_horizontal
        [Size.auto 1, Size.ratio (1/2)] = .ok a' ∧
       a'.aid = (Area.mk 7 none none [Area.mk 8 none none []]).aid ∧
       a'.length = (Area.mk 7 none none [Area.mk 8 none none []]).length ∧
       a'.split = some Dir.horizontal ∧
       a'.children.length = [Size.auto 1, Size.ratio (1/2)].length ∧
       (∀ (i : ℕ) (l : Size), [Size.auto 1, Size.ratio (1/2)][i]? = some l →
          a'.children[i]? = some (Area.mk i (some l) none []))) ∧
    (∀ d, (Area.mk 7 none none [Area.mk 8 none none []]).applySplit [] d
        = .error .specMismatch) :=
  c8_split_builder (Area.mk 7 none none [Area.mk 8 none none []])
    [Size.auto 1, Size.ratio (1/2)] (by simp)

end Pyptx
